import Mathlib

/-!
Verification of the OpenFIDO build-manifest validator, the mutation test
harness, and the flash dispatcher, shallowly embedded from
`scripts/validate_build.py`, `tests/test_cmake_error_handling.py` and
`scripts/flash.py`.

Filesystem effects are modelled explicitly: the validator receives a record
of the answers the operating system would give to its queries
(does the manifest exist, what does it contain, is a given path a regular
file), and every run returns that record unchanged, reflecting that the
Python code performs only reads.
-/

namespace OpenFIDO

/-- Membership in the character class of the extraction pattern
`src/[a-zA-Z0-9_/]+\.[ch]` from `parse_cmake_sources`
(`scripts/validate_build.py`). -/
def isClassChar (c : Char) : Bool :=
  (('a' ≤ c && c ≤ 'z') || ('A' ≤ c && c ≤ 'Z') ||
   ('0' ≤ c && c ≤ '9') || c = '_' || c = '/')

/-- Attempt to match the tail of the pattern (the part after the literal
`src/`): a nonempty greedy run of class characters, a dot, and an extension
character `c` or `h`.  Returns the whole matched string together with the
remainder of the text.  The greedy run is the maximal class-character
prefix; backtracking it cannot help, because the character that must follow
the run is `.`, which is itself outside the class, so maximal munch agrees
with the backtracking regex engine. -/
def matchAfterSrc (rest : List Char) : Option (List Char × List Char) :=
  if rest.takeWhile isClassChar = [] then none
  else
    match rest.dropWhile isClassChar with
    | d :: e :: rest3 =>
      if d = '.' && (e = 'c' || e = 'h') then
        some ('s' :: 'r' :: 'c' :: '/' :: (rest.takeWhile isClassChar ++ [d, e]),
          rest3)
      else none
    | _ => none

/-- Attempt to match the full pattern `src/[a-zA-Z0-9_/]+\.[ch]` at the
head of the text. -/
def matchFrom (cs : List Char) : Option (List Char × List Char) :=
  match cs with
  | a :: b :: c :: d :: rest =>
    if a = 's' && b = 'r' && c = 'c' && d = '/' then matchAfterSrc rest
    else none
  | _ => none

theorem matchAfterSrc_length {rest : List Char} {mr : List Char × List Char}
    (h : matchAfterSrc rest = some mr) : mr.2.length < rest.length + 4 := by
  unfold matchAfterSrc at h
  split at h
  · exact absurd h (by simp)
  · split at h
    · next d e rest3 heq =>
      split at h
      · have h2 : rest3.length + 2 ≤ rest.length := by
          have hs : (rest.dropWhile isClassChar).Sublist rest :=
            List.dropWhile_sublist _
          have := hs.length_le
          rw [heq] at this
          simpa using this
        have hmr : mr.2 = rest3 := by
          have : some _ = some mr := h
          simp only [Option.some.injEq] at this
          rw [← this]
        rw [hmr]
        omega
      · exact absurd h (by simp)
    · exact absurd h (by simp)

theorem matchFrom_length {cs : List Char} {mr : List Char × List Char}
    (h : matchFrom cs = some mr) : mr.2.length < cs.length := by
  unfold matchFrom at h
  split at h
  · next a b c d rest =>
    split at h
    · have := matchAfterSrc_length h
      simp only [List.length_cons]
      omega
    · exact absurd h (by simp)
  · exact absurd h (by simp)

/-- Fuel-driven scanner: at each position try `matchFrom`; on a match emit
it and continue after the match (non-overlapping), otherwise advance one
character.  This is the semantics of `re.findall` for this pattern. -/
def findAllGo : Nat → List Char → List (List Char)
  | 0, _ => []
  | Nat.succ n, cs =>
    match matchFrom cs with
    | some mr => mr.1 :: findAllGo n mr.2
    | none =>
      match cs with
      | [] => []
      | _ :: cs' => findAllGo n cs'

/-- All non-overlapping leftmost matches of the pattern in the text
(`file_pattern.findall(content)` in `parse_cmake_sources`). -/
def findAll (cs : List Char) : List (List Char) :=
  findAllGo cs.length cs

theorem findAllGo_fuel (n₁ : Nat) : ∀ (n₂ : Nat) (cs : List Char),
    cs.length ≤ n₁ → cs.length ≤ n₂ → findAllGo n₁ cs = findAllGo n₂ cs := by
  induction n₁ with
  | zero =>
    intro n₂ cs h1 _
    have : cs = [] := List.length_eq_zero.mp (Nat.le_zero.mp h1)
    subst this
    cases n₂ <;> simp [findAllGo, matchFrom]
  | succ k ih =>
    intro n₂ cs h1 h2
    cases n₂ with
    | zero =>
      have : cs = [] := List.length_eq_zero.mp (Nat.le_zero.mp h2)
      subst this
      simp [findAllGo, matchFrom]
    | succ j =>
      simp only [findAllGo]
      cases hm : matchFrom cs with
      | some mr =>
        have hlen := matchFrom_length hm
        have hk : mr.2.length ≤ k := by omega
        have hj : mr.2.length ≤ j := by omega
        dsimp only
        rw [ih j mr.2 hk hj]
      | none =>
        dsimp only
        cases cs with
        | nil => rfl
        | cons c cs' =>
          have hk : cs'.length ≤ k := by simp at h1; omega
          have hj : cs'.length ≤ j := by simp at h2; omega
          exact ih j cs' hk hj

theorem findAll_nil : findAll [] = [] := rfl

theorem findAll_match_some {cs : List Char} {mr : List Char × List Char}
    (h : matchFrom cs = some mr) : findAll cs = mr.1 :: findAll mr.2 := by
  have hlen := matchFrom_length h
  cases cs with
  | nil => simp [matchFrom] at h
  | cons c cs' =>
    show findAllGo (c :: cs').length (c :: cs') = _
    simp only [List.length_cons, findAllGo, h]
    congr 1
    exact findAllGo_fuel cs'.length mr.2.length mr.2
      (by simp only [List.length_cons] at hlen; omega) (le_refl _)

theorem findAll_match_none {c : Char} {cs : List Char}
    (h : matchFrom (c :: cs) = none) : findAll (c :: cs) = findAll cs := by
  show findAllGo (c :: cs).length (c :: cs) = _
  simp only [List.length_cons, findAllGo, h]
  rfl

/-- Deduplication loop of `parse_cmake_sources`: walk the matches keeping a
`seen` set, appending each match the first time it is encountered.  The
`seen` set is modelled as a list queried by membership. -/
def dedupGo (seen : List String) : List String → List String
  | [] => []
  | m :: ms => if m ∈ seen then dedupGo seen ms
               else m :: dedupGo (m :: seen) ms

/-- `parse_cmake_sources` (`scripts/validate_build.py`): find all matches of
the extraction pattern in the manifest text, then remove duplicates while
preserving order of first occurrence. -/
def parse_cmake_sources (content : String) : List String :=
  dedupGo [] ((findAll content.data).map fun l => String.mk l)

theorem mem_dedupGo (x : String) : ∀ (ms seen : List String),
    x ∈ dedupGo seen ms ↔ x ∈ ms ∧ x ∉ seen := by
  intro ms
  induction ms with
  | nil => intro seen; simp [dedupGo]
  | cons m ms ih =>
    intro seen
    by_cases hm : m ∈ seen
    · simp only [dedupGo, if_pos hm, ih]
      constructor
      · rintro ⟨h1, h2⟩; exact ⟨List.mem_cons_of_mem _ h1, h2⟩
      · rintro ⟨h1, h2⟩
        rcases List.mem_cons.mp h1 with h | h
        · subst h; exact absurd hm h2
        · exact ⟨h, h2⟩
    · simp only [dedupGo, if_neg hm, List.mem_cons, ih]
      constructor
      · rintro (h | ⟨h1, h2⟩)
        · subst h; exact ⟨Or.inl rfl, hm⟩
        · simp only [List.mem_cons, not_or] at h2
          exact ⟨Or.inr h1, h2.2⟩
      · rintro ⟨h1 | h1, h2⟩
        · exact Or.inl h1
        · by_cases hx : x = m
          · exact Or.inl hx
          · exact Or.inr ⟨h1, by simp [List.mem_cons, hx, h2]⟩

theorem dedupGo_sublist : ∀ (ms seen : List String),
    (dedupGo seen ms).Sublist ms := by
  intro ms
  induction ms with
  | nil => intro seen; simp [dedupGo]
  | cons m ms ih =>
    intro seen
    by_cases hm : m ∈ seen
    · simp only [dedupGo, if_pos hm]
      exact (ih seen).cons m
    · simp only [dedupGo, if_neg hm]
      exact (ih (m :: seen)).cons₂ m

theorem dedupGo_nodup : ∀ (ms seen : List String),
    (dedupGo seen ms).Nodup := by
  intro ms
  induction ms with
  | nil => intro seen; simp [dedupGo]
  | cons m ms ih =>
    intro seen
    by_cases hm : m ∈ seen
    · simp only [dedupGo, if_pos hm]; exact ih seen
    · simp only [dedupGo, if_neg hm]
      refine List.nodup_cons.mpr ⟨?_, ih (m :: seen)⟩
      intro hmem
      exact ((mem_dedupGo m ms (m :: seen)).mp hmem).2 (List.mem_cons_self _ _)

/-- Answers the operating system would give to the validator's queries.
`cmakeExists` models `Path(root/CMakeLists.txt).exists()`, `cmakeContent`
the text read from that file, `isfile p` models `os.path.isfile(p)` (true
exactly when a regular file, after following symlinks, is at `p`; false for
directories, special files and absent paths), and `rootIsDir` models
whether the project root exists and is a directory. -/
structure FS where
  cmakeExists : Bool
  cmakeContent : String
  isfile : String → Bool
  rootIsDir : Bool

/-- `os.path.join(project_root, file_path)` for the relative paths produced
by the extractor (every extracted path starts with `src/`, so is never
absolute). -/
def osJoin (root p : String) : String := root ++ "/" ++ p

/-- The accumulation loop of `verify_files_exist`: append each path whose
joined form is not a regular file to the missing list, checking every
reference (no short-circuit). -/
def collectMissing (root : String) (fs : FS) : List String → List String
  | [] => []
  | p :: ps =>
    if fs.isfile (osJoin root p) then collectMissing root fs ps
    else p :: collectMissing root fs ps

/-- `verify_files_exist` (`scripts/validate_build.py`): returns
`(all_exist, missing_files)` where `all_exist` is `len(missing_files) == 0`.
The `FS` record is threaded through and returned untouched: the function
only queries `os.path.isfile`. -/
def verify_files_exist (source_files : List String) (project_root : String)
    (fs : FS) : (Bool × List String) × FS :=
  let missing := collectMissing project_root fs source_files
  ((missing.length == 0, missing), fs)

/-- Lexicographic comparison of character lists by code point, the order
Python uses to compare strings. -/
def lexLe : List Char → List Char → Bool
  | [], _ => true
  | _ :: _, [] => false
  | x :: xs, y :: ys =>
    if x.val < y.val then true
    else if x = y then lexLe xs ys
    else false

/-- Code-point lexicographic order on strings (Python's `<=` on `str`). -/
def strLe (a b : String) : Bool := lexLe a.data b.data

/-- Insertion of a string into a lexicographically sorted list; `insSorted`
and `sortStrings` together model Python's `sorted()` on the (duplicate-free)
extracted path list: both produce the unique lexicographically ascending
permutation. -/
def insSorted (x : String) : List String → List String
  | [] => [x]
  | y :: ys => if strLe x y then x :: y :: ys else y :: insSorted x ys

/-- Model of `sorted(source_files)` in `main`. -/
def sortStrings : List String → List String
  | [] => []
  | x :: xs => insSorted x (sortStrings xs)

/-- Observable outcome of one validator process run: the value returned by
`main` (which the script passes to `sys.exit`), the lines printed to
standard output and the lines printed to standard error, in order. -/
structure RunResult where
  exitCode : Nat
  stdout : List String
  stderr : List String
deriving DecidableEq, Repr

/-- The lines `main` prints before any existence check, once the manifest
has been found. -/
def headerLines (root : String) (nRefs : Nat) : List String :=
  ["Validating build configuration...",
   "Project root: " ++ root,
   "CMakeLists.txt: " ++ root ++ "/CMakeLists.txt",
   "",
   "Found " ++ toString nRefs ++ " source file references in CMakeLists.txt",
   ""]

/-- The configuration-error line `main` prints to stderr when the manifest
is absent. -/
def configErrorLine (root : String) : String :=
  "ERROR: CMakeLists.txt not found at " ++ root ++ "/CMakeLists.txt"

/-- `main` of `scripts/validate_build.py` as a function of the project root
and the filesystem answers.  Returns the `RunResult` together with the
(unmodified) filesystem: the script performs no writes. -/
def mainRun (root : String) (fs : FS) : RunResult × FS :=
  if fs.cmakeExists then
    let source_files := parse_cmake_sources fs.cmakeContent
    let res := verify_files_exist source_files root fs
    let all_exist := res.1.1
    let missing_files := res.1.2
    if all_exist then
      (⟨0,
        headerLines root source_files.length ++
          ["[SUCCESS] All referenced source files exist", "",
           "Validated files:"] ++
          (sortStrings source_files).map (fun p => "  [OK] " ++ p),
        []⟩, res.2)
    else
      (⟨1,
        headerLines root source_files.length,
        ["[FAILURE] Missing source files detected", "", "Missing files:"] ++
          missing_files.map (fun p => "  [MISSING] " ++ p) ++
          ["", "Total missing: " ++ toString missing_files.length]⟩, res.2)
  else
    (⟨1, [], [configErrorLine root]⟩, fs)

/-- State of the two files the mutation harness
(`tests/test_cmake_error_handling.py`) touches: the manifest
`CMakeLists.txt` and its backup copy `CMakeLists.txt.backup` (absent
initially, `some` content once created). -/
structure TState where
  manifest : String
  backup : Option String
deriving DecidableEq, Repr

/-- `backup_file`: `shutil.copy2` of the manifest to the backup path. -/
def backup_file (s : TState) : TState :=
  { s with backup := some s.manifest }

/-- The literal needle `add_invalid_file_reference` replaces in the
manifest. -/
def cryptoNeedle : String :=
  "set(CRYPTO_SOURCES\n    src/crypto/crypto.c\n)"

/-- The replacement text inserting the non-existent reference. -/
def cryptoReplacement : String :=
  "set(CRYPTO_SOURCES\n    src/crypto/crypto.c\n    src/crypto/nonexistent_file.c\n)"

/-- `add_invalid_file_reference`: `str.replace` of the needle by the
replacement, written back to the manifest. -/
def add_invalid_file_reference (s : TState) : TState :=
  { s with manifest := s.manifest.replace cryptoNeedle cryptoReplacement }

/-- `restore_file`, guarded as in the harness's `finally` block: if the
backup file exists, copy it over the manifest and delete it; otherwise do
nothing. -/
def restore_file (s : TState) : TState :=
  match s.backup with
  | some b => { manifest := b, backup := none }
  | none => s

/-- How the driven validation/build step of the harness can end: the CMake
reconfiguration fails; it succeeds and the subsequent make build fails; both
succeed; a driven tool cannot be invoked or times out; or the harness's own
logic raises an unexpected exception. -/
inductive DriveOutcome
  | reconfigFails
  | buildFails
  | buildSucceeds
  | toolUnavailable
  | internalError
deriving DecidableEq, Repr

/-- The `try` body of the harness after the mutation: CMake and make only
read the source tree, so apart from an unexpected exception (propagated as
`Except.error`) the file state is unchanged. -/
def harnessBody (o : DriveOutcome) (s : TState) : Except Unit TState :=
  match o with
  | DriveOutcome.internalError => Except.error ()
  | _ => Except.ok s

/-- The harness's `try`/`finally` from the point where the mutation step is
reached: back up, mutate, drive the validation/build step, and restore in
the `finally` block on both normal completion and exception propagation. -/
def runHarness (o : DriveOutcome) (s : TState) : TState :=
  let s1 := backup_file s
  let s2 := add_invalid_file_reference s1
  match harnessBody o s2 with
  | Except.ok s3 => restore_file s3
  | Except.error _ => restore_file s2

/-- Target platform flag of the flash dispatcher (`scripts/flash.py`),
restricted to the values `argparse` accepts. -/
inductive FlashPlatform
  | stm32
  | nrf52
deriving DecidableEq, Repr

/-- Flash method flag, restricted to the `argparse` choices. -/
inductive FlashMethod
  | stflash
  | openocd
deriving DecidableEq, Repr

/-- Environment of one flash-dispatcher run: whether a path exists
(`os.path.exists`), whether `shutil.which` finds a tool on the search path,
and the exit status `subprocess.run` would observe for a given command
line. -/
structure FlashEnv where
  pathExists : String → Bool
  toolOnPath : String → Bool
  runExit : List String → Nat

/-- Vendor tool selected by platform and method: `st-flash` or `openocd`
for STM32, `nrfjprog` for nRF52. -/
def selectedTool (p : FlashPlatform) (m : FlashMethod) : String :=
  match p, m with
  | FlashPlatform.stm32, FlashMethod.stflash => "st-flash"
  | FlashPlatform.stm32, FlashMethod.openocd => "openocd"
  | FlashPlatform.nrf52, _ => "nrfjprog"

/-- The command lines the dispatcher runs once the tool check passes, in
order. -/
def plannedCmds (p : FlashPlatform) (firmware : String) (m : FlashMethod) :
    List (List String) :=
  match p, m with
  | FlashPlatform.stm32, FlashMethod.stflash =>
    [["st-flash", "write", firmware, "0x8000000"]]
  | FlashPlatform.stm32, FlashMethod.openocd =>
    [["openocd", "-f", "interface/stlink.cfg", "-f", "target/stm32f4x.cfg",
      "-c", "program " ++ firmware ++ " verify reset exit 0x08000000"]]
  | FlashPlatform.nrf52, _ =>
    [["nrfjprog", "--eraseall"],
     ["nrfjprog", "--program", firmware, "--verify"],
     ["nrfjprog", "--reset"]]

/-- `flash_stm32` (`scripts/flash.py`): exit 1 via `error` if the tool is
absent or the single vendor invocation fails (`subprocess.run` with
`check=True` raising `CalledProcessError`), else fall through to a normal
process exit 0. -/
def flash_stm32 (firmware : String) (m : FlashMethod) (env : FlashEnv) :
    Nat :=
  match m with
  | FlashMethod.stflash =>
    if !env.toolOnPath "st-flash" then 1
    else if env.runExit ["st-flash", "write", firmware, "0x8000000"] ≠ 0
      then 1
    else 0
  | FlashMethod.openocd =>
    if !env.toolOnPath "openocd" then 1
    else if env.runExit ["openocd", "-f", "interface/stlink.cfg", "-f",
        "target/stm32f4x.cfg", "-c",
        "program " ++ firmware ++ " verify reset exit 0x08000000"] ≠ 0
      then 1
    else 0

/-- `flash_nrf52` (`scripts/flash.py`): exit 1 if `nrfjprog` is absent or
any of the three sequential invocations (erase, program, reset) fails; the
sequence stops at the first failure. -/
def flash_nrf52 (firmware : String) (env : FlashEnv) : Nat :=
  if !env.toolOnPath "nrfjprog" then 1
  else if env.runExit ["nrfjprog", "--eraseall"] ≠ 0 then 1
  else if env.runExit ["nrfjprog", "--program", firmware, "--verify"] ≠ 0
    then 1
  else if env.runExit ["nrfjprog", "--reset"] ≠ 0 then 1
  else 0

/-- `main` of `scripts/flash.py` for a valid invocation (recognized
platform and method flags): check the firmware path exists, then dispatch.
The script calls `main()` without `sys.exit`, so normal completion is
process exit 0, and every failure goes through `error`, which is
`sys.exit(1)`. -/
def flashMain (p : FlashPlatform) (firmware : String) (m : FlashMethod)
    (env : FlashEnv) : Nat :=
  if !env.pathExists firmware then 1
  else
    match p with
    | FlashPlatform.stm32 => flash_stm32 firmware m env
    | FlashPlatform.nrf52 => flash_nrf52 firmware env

theorem collectMissing_eq_filter (root : String) (fs : FS) :
    ∀ l : List String,
      collectMissing root fs l = l.filter fun p => !fs.isfile (osJoin root p) := by
  intro l
  induction l with
  | nil => rfl
  | cons p ps ih =>
    by_cases hp : fs.isfile (osJoin root p)
    · simp [collectMissing, hp, List.filter_cons, ih]
    · simp only [Bool.not_eq_true] at hp
      simp [collectMissing, hp, List.filter_cons, ih]

theorem mainRun_manifest_absent (root : String) (fs : FS)
    (h : fs.cmakeExists = false) :
    (mainRun root fs).1 = ⟨1, [], [configErrorLine root]⟩ := by
  simp [mainRun, h]

theorem configErrorLine_head (root : String) :
    (configErrorLine root).data.head? = some 'E' := rfl

theorem mainRun_failure (root : String) (fs : FS)
    (h : fs.cmakeExists = true)
    (hm : collectMissing root fs (parse_cmake_sources fs.cmakeContent) ≠ []) :
    (mainRun root fs).1 =
      ⟨1,
       headerLines root (parse_cmake_sources fs.cmakeContent).length,
       ["[FAILURE] Missing source files detected", "", "Missing files:"] ++
         (collectMissing root fs (parse_cmake_sources fs.cmakeContent)).map
           (fun p => "  [MISSING] " ++ p) ++
         ["", "Total missing: " ++
           toString (collectMissing root fs
             (parse_cmake_sources fs.cmakeContent)).length]⟩ := by
  have hlen : ((collectMissing root fs
      (parse_cmake_sources fs.cmakeContent)).length == 0) = false := by
    simp only [beq_eq_false_iff_ne, ne_eq, List.length_eq_zero]
    exact hm
  simp [mainRun, verify_files_exist, h, hlen]

theorem mainRun_success (root : String) (fs : FS)
    (h : fs.cmakeExists = true)
    (hm : collectMissing root fs (parse_cmake_sources fs.cmakeContent) = []) :
    (mainRun root fs).1 =
      ⟨0,
       headerLines root (parse_cmake_sources fs.cmakeContent).length ++
         ["[SUCCESS] All referenced source files exist", "",
          "Validated files:"] ++
         (sortStrings (parse_cmake_sources fs.cmakeContent)).map
           (fun p => "  [OK] " ++ p),
       []⟩ := by
  simp [mainRun, verify_files_exist, h, hm]

/-- C1: for every list of extracted references and every project root, a
reference is reported missing exactly when `root/reference` is not a
regular file, a reference is either missing or backed by a regular file
(none omitted from both classifications), and the overall verdict is
success exactly when the missing list is empty. -/
theorem C1_existence_soundness (files : List String) (root : String)
    (fs : FS) (p : String) (hp : p ∈ files) :
    (p ∈ (verify_files_exist files root fs).1.2 ↔
      fs.isfile (osJoin root p) = false) ∧
    (p ∈ (verify_files_exist files root fs).1.2 ∨
      fs.isfile (osJoin root p) = true) ∧
    ((verify_files_exist files root fs).1.1 = true ↔
      (verify_files_exist files root fs).1.2 = []) := by
  have hmem : p ∈ (verify_files_exist files root fs).1.2 ↔
      fs.isfile (osJoin root p) = false := by
    simp only [verify_files_exist, collectMissing_eq_filter, List.mem_filter,
      Bool.not_eq_true']
    exact ⟨fun h => h.2, fun h => ⟨hp, h⟩⟩
  refine ⟨hmem, ?_, ?_⟩
  · by_cases hf : fs.isfile (osJoin root p) = true
    · exact Or.inr hf
    · exact Or.inl (hmem.mpr (by simpa using hf))
  · simp only [verify_files_exist, beq_iff_eq, List.length_eq_zero]

theorem C1_existence_soundness_witness :
    ("src/a.c" ∈ (["src/a.c", "src/b.c"] : List String)) ∧
    (("src/a.c" ∈ (verify_files_exist ["src/a.c", "src/b.c"] "R"
        ⟨true, "", fun q => q = "R/src/b.c", true⟩).1.2 ↔
      FS.isfile ⟨true, "", fun q => q = "R/src/b.c", true⟩
        (osJoin "R" "src/a.c") = false) ∧
     ("src/a.c" ∈ (verify_files_exist ["src/a.c", "src/b.c"] "R"
        ⟨true, "", fun q => q = "R/src/b.c", true⟩).1.2 ∨
      FS.isfile ⟨true, "", fun q => q = "R/src/b.c", true⟩
        (osJoin "R" "src/a.c") = true) ∧
     ((verify_files_exist ["src/a.c", "src/b.c"] "R"
        ⟨true, "", fun q => q = "R/src/b.c", true⟩).1.1 = true ↔
      (verify_files_exist ["src/a.c", "src/b.c"] "R"
        ⟨true, "", fun q => q = "R/src/b.c", true⟩).1.2 = [])) :=
  ⟨by decide,
   C1_existence_soundness ["src/a.c", "src/b.c"] "R"
     ⟨true, "", fun q => q = "R/src/b.c", true⟩ "src/a.c" (by decide)⟩

/-- C2: when references are missing, the missing list is exactly the
order-preserving filter of the extracted sequence by non-existence (so
exactly the N missing ones, with no short-circuit at the first miss), and
the failure report printed to stderr enumerates every one of them followed
by the total count. -/
theorem C2_report_completeness (root : String) (fs : FS)
    (h : fs.cmakeExists = true)
    (hm : collectMissing root fs (parse_cmake_sources fs.cmakeContent) ≠ []) :
    collectMissing root fs (parse_cmake_sources fs.cmakeContent) =
      (parse_cmake_sources fs.cmakeContent).filter
        (fun p => !fs.isfile (osJoin root p)) ∧
    (mainRun root fs).1.exitCode = 1 ∧
    (mainRun root fs).1.stderr =
      ["[FAILURE] Missing source files detected", "", "Missing files:"] ++
        (collectMissing root fs (parse_cmake_sources fs.cmakeContent)).map
          (fun p => "  [MISSING] " ++ p) ++
        ["", "Total missing: " ++
          toString (collectMissing root fs
            (parse_cmake_sources fs.cmakeContent)).length] := by
  refine ⟨collectMissing_eq_filter root fs _, ?_, ?_⟩
  · rw [mainRun_failure root fs h hm]
  · rw [mainRun_failure root fs h hm]

theorem C2_report_completeness_witness :
    ((⟨true, "src/a.c src/b.c src/a.c", fun q => q = "R/src/b.c", true⟩ :
        FS).cmakeExists = true) ∧
    (collectMissing "R" ⟨true, "src/a.c src/b.c src/a.c",
        fun q => q = "R/src/b.c", true⟩
      (parse_cmake_sources "src/a.c src/b.c src/a.c") ≠ []) ∧
    (mainRun "R" ⟨true, "src/a.c src/b.c src/a.c",
        fun q => q = "R/src/b.c", true⟩).1.exitCode = 1 :=
  ⟨rfl, by decide,
   (C2_report_completeness "R"
     ⟨true, "src/a.c src/b.c src/a.c", fun q => q = "R/src/b.c", true⟩
     rfl (by decide)).2.1⟩

/-- C4: when the manifest file is absent, the run prints exactly the
configuration-error line to stderr (whose first character already differs
from the validation-failure report's first line), prints nothing to stdout
(no partial report), and exits with code 1. -/
theorem C4_manifest_absent (root : String) (fs : FS)
    (h : fs.cmakeExists = false) :
    (mainRun root fs).1 = ⟨1, [], [configErrorLine root]⟩ ∧
    configErrorLine root ≠ "[FAILURE] Missing source files detected" := by
  refine ⟨mainRun_manifest_absent root fs h, ?_⟩
  intro heq
  have h1 := configErrorLine_head root
  rw [heq] at h1
  exact absurd h1 (by decide)

theorem C4_manifest_absent_witness :
    ((⟨false, "", fun _ => false, true⟩ : FS).cmakeExists = false) ∧
    (mainRun "R" ⟨false, "", fun _ => false, true⟩).1 =
      ⟨1, [], [configErrorLine "R"]⟩ :=
  ⟨rfl, (C4_manifest_absent "R" ⟨false, "", fun _ => false, true⟩ rfl).1⟩

/-- C5: when the project root does not exist or is not a directory (so
that, on a real filesystem, `root/CMakeLists.txt` cannot exist either,
which is the coherence hypothesis), the run reports the configuration
error — distinct from the validation-failure report — to stderr, produces
no validation report on stdout, and exits non-zero. -/
theorem C5_root_not_dir (root : String) (fs : FS)
    (hcoh : fs.rootIsDir = false → fs.cmakeExists = false)
    (h : fs.rootIsDir = false) :
    (mainRun root fs).1.exitCode ≠ 0 ∧
    (mainRun root fs).1 = ⟨1, [], [configErrorLine root]⟩ ∧
    configErrorLine root ≠ "[FAILURE] Missing source files detected" := by
  have hmain := mainRun_manifest_absent root fs (hcoh h)
  refine ⟨?_, hmain, ?_⟩
  · rw [hmain]; exact one_ne_zero
  · intro heq
    have h1 := configErrorLine_head root
    rw [heq] at h1
    exact absurd h1 (by decide)

theorem C5_root_not_dir_witness :
    ((⟨false, "", fun _ => false, false⟩ : FS).rootIsDir = false) ∧
    (mainRun "R" ⟨false, "", fun _ => false, false⟩).1 =
      ⟨1, [], [configErrorLine "R"]⟩ :=
  ⟨rfl,
   (C5_root_not_dir "R" ⟨false, "", fun _ => false, false⟩
     (fun _ => rfl) rfl).2.1⟩

theorem findAll_eq_nil_of_no_match : ∀ l : List Char,
    (∀ n < l.length, matchFrom (l.drop n) = none) → findAll l = [] := by
  intro l
  induction l with
  | nil => intro _; rfl
  | cons c cs ih =>
    intro h
    have h0 : matchFrom (c :: cs) = none := by
      have := h 0 (by simp)
      simpa using this
    rw [findAll_match_none h0]
    refine ih ?_
    intro n hn
    have := h (n + 1) (by simp only [List.length_cons]; omega)
    simpa using this

/-- C3 counterexample: with manifest text listing `src/b.c` before
`src/a.c` and every file present, the extractor returns the
first-occurrence order, but the success report prints the validated list
sorted, so the reported sequence does not preserve first-occurrence
order. -/
theorem C3_order_counterexample :
    parse_cmake_sources "src/b.c src/a.c" = ["src/b.c", "src/a.c"] ∧
    (mainRun "R" ⟨true, "src/b.c src/a.c", fun _ => true, true⟩).1.exitCode
      = 0 ∧
    (mainRun "R" ⟨true, "src/b.c src/a.c", fun _ => true, true⟩).1.stdout ≠
      headerLines "R" (parse_cmake_sources "src/b.c src/a.c").length ++
        ["[SUCCESS] All referenced source files exist", "",
         "Validated files:"] ++
        (parse_cmake_sources "src/b.c src/a.c").map
          (fun p => "  [OK] " ++ p) := by
  decide

theorem dedupGo_pairwise_indexOf : ∀ (ms seen : List String),
    (dedupGo seen ms).Pairwise
      (fun x y => ms.indexOf x < ms.indexOf y) := by
  intro ms
  induction ms with
  | nil => intro seen; simp [dedupGo]
  | cons m ms ih =>
    intro seen
    by_cases hm : m ∈ seen
    · simp only [dedupGo, if_pos hm]
      refine List.Pairwise.imp_of_mem ?_ (ih seen)
      intro x y hx hy hlt
      have hxm : x ≠ m := fun h =>
        (((mem_dedupGo x ms seen).mp hx).2) (h ▸ hm)
      have hym : y ≠ m := fun h =>
        (((mem_dedupGo y ms seen).mp hy).2) (h ▸ hm)
      rw [List.indexOf_cons_ne _ (Ne.symm hxm),
        List.indexOf_cons_ne _ (Ne.symm hym)]
      omega
    · simp only [dedupGo, if_neg hm]
      refine List.Pairwise.cons ?_ ?_
      · intro y hy
        have hym : y ≠ m := fun h =>
          (((mem_dedupGo y ms (m :: seen)).mp hy).2)
            (h ▸ List.mem_cons_self m seen)
        rw [List.indexOf_cons_self, List.indexOf_cons_ne _ (Ne.symm hym)]
        omega
      · refine List.Pairwise.imp_of_mem ?_ (ih (m :: seen))
        intro x y hx hy hlt
        have hxm : x ≠ m := fun h =>
          (((mem_dedupGo x ms (m :: seen)).mp hx).2)
            (h ▸ List.mem_cons_self m seen)
        have hym : y ≠ m := fun h =>
          (((mem_dedupGo y ms (m :: seen)).mp hy).2)
            (h ▸ List.mem_cons_self m seen)
        rw [List.indexOf_cons_ne _ (Ne.symm hxm),
          List.indexOf_cons_ne _ (Ne.symm hym)]
        omega

/-- C3 amended: the extractor returns the matches deduplicated with first
occurrence order preserved — a duplicate-free sublist of the raw match
sequence with the same members, whose elements moreover appear in strictly
increasing order of their first-occurrence index (`List.indexOf`) in the
raw match sequence, which pins the output down to exactly the
first-occurrence dedup — and the missing list preserves that order (a
sublist of the duplicate-free extracted sequence); however the success
report prints the validated paths in lexicographically sorted order, not
first-occurrence order. -/
theorem C3_order_amended (root : String) (fs : FS) :
    (parse_cmake_sources fs.cmakeContent).Nodup ∧
    (parse_cmake_sources fs.cmakeContent).Pairwise
      (fun x y =>
        ((findAll fs.cmakeContent.data).map fun l => String.mk l).indexOf x <
        ((findAll fs.cmakeContent.data).map fun l => String.mk l).indexOf y) ∧
    (parse_cmake_sources fs.cmakeContent).Sublist
      ((findAll fs.cmakeContent.data).map fun l => String.mk l) ∧
    (∀ x, x ∈ parse_cmake_sources fs.cmakeContent ↔
      x ∈ (findAll fs.cmakeContent.data).map fun l => String.mk l) ∧
    (collectMissing root fs (parse_cmake_sources fs.cmakeContent)).Sublist
      (parse_cmake_sources fs.cmakeContent) ∧
    (fs.cmakeExists = true →
      collectMissing root fs (parse_cmake_sources fs.cmakeContent) = [] →
      (mainRun root fs).1.stdout =
        headerLines root (parse_cmake_sources fs.cmakeContent).length ++
          ["[SUCCESS] All referenced source files exist", "",
           "Validated files:"] ++
          (sortStrings (parse_cmake_sources fs.cmakeContent)).map
            (fun p => "  [OK] " ++ p)) := by
  refine ⟨dedupGo_nodup _ _, dedupGo_pairwise_indexOf _ _,
    dedupGo_sublist _ _, ?_, ?_, ?_⟩
  · intro x
    rw [parse_cmake_sources, mem_dedupGo]
    simp
  · rw [collectMissing_eq_filter]
    exact List.filter_sublist _
  · intro h hm
    rw [mainRun_success root fs h hm]

theorem C3_order_amended_witness :
    (mainRun "R" ⟨true, "src/b.c src/a.c", fun _ => true, true⟩).1.stdout =
      headerLines "R" (parse_cmake_sources "src/b.c src/a.c").length ++
        ["[SUCCESS] All referenced source files exist", "",
         "Validated files:"] ++
        (sortStrings (parse_cmake_sources "src/b.c src/a.c")).map
          (fun p => "  [OK] " ++ p) :=
  (C3_order_amended "R"
    ⟨true, "src/b.c src/a.c", fun _ => true, true⟩).2.2.2.2.2 rfl
    (by decide)

/-- C6: when no position of the manifest text starts a match of the
extraction pattern, the extractor yields the empty sequence and the run is
vacuously valid: exit code 0, a success report with an empty validated
list, and nothing on stderr. -/
theorem C6_zero_matches (root : String) (fs : FS)
    (h : fs.cmakeExists = true)
    (hnone : ∀ n < fs.cmakeContent.data.length,
      matchFrom (fs.cmakeContent.data.drop n) = none) :
    parse_cmake_sources fs.cmakeContent = [] ∧
    (mainRun root fs).1.exitCode = 0 ∧
    (mainRun root fs).1.stdout =
      headerLines root 0 ++
        ["[SUCCESS] All referenced source files exist", "",
         "Validated files:"] ∧
    (mainRun root fs).1.stderr = [] := by
  have hparse : parse_cmake_sources fs.cmakeContent = [] := by
    rw [parse_cmake_sources, findAll_eq_nil_of_no_match _ hnone]
    rfl
  have hm : collectMissing root fs (parse_cmake_sources fs.cmakeContent)
      = [] := by
    rw [hparse]
    rfl
  have hmain := mainRun_success root fs h hm
  rw [hmain]
  refine ⟨hparse, rfl, ?_, rfl⟩
  rw [hparse]
  rfl

theorem C6_zero_matches_witness :
    parse_cmake_sources "hello" = [] ∧
    (mainRun "R" ⟨true, "hello", fun _ => false, true⟩).1.exitCode = 0 :=
  ⟨(C6_zero_matches "R" ⟨true, "hello", fun _ => false, true⟩ rfl
      (by decide)).1,
   (C6_zero_matches "R" ⟨true, "hello", fun _ => false, true⟩ rfl
      (by decide)).2.1⟩

/-- C7: from the point where the harness reaches its mutation step, the
manifest content after the `try`/`finally` completes — for every possible
outcome of the driven validation/build step, including an internal
exception — is byte-identical to its pre-mutation content. -/
theorem C7_harness_restoration (c0 : String) (o : DriveOutcome) :
    (runHarness o ⟨c0, none⟩).manifest = c0 := by
  cases o <;> rfl

theorem mainRun_fs_unchanged (root : String) (fs : FS) :
    (mainRun root fs).2 = fs := by
  by_cases h : fs.cmakeExists
  · simp only [mainRun, verify_files_exist, h, if_true]
    split <;> rfl
  · simp [mainRun, h]

/-- C8: the validator is a pure function of the manifest text and
filesystem answers: it performs no writes (the filesystem record comes back
unchanged), so a second run on the resulting state produces the identical
report — same extracted sequence, partition, printed lines — and the same
exit code. -/
theorem C8_idempotence (root : String) (fs : FS) :
    (mainRun root fs).2 = fs ∧
    mainRun root (mainRun root fs).2 = mainRun root fs := by
  have h := mainRun_fs_unchanged root fs
  exact ⟨h, by rw [h]⟩

/-- C9: for every valid flash-dispatcher invocation the process exit code
is 0 or 1, and it is 0 exactly when the firmware path exists, the selected
vendor tool is on the search path, and every vendor command the dispatcher
runs exits with status 0 — equivalently, it is 1 exactly when the firmware
is missing, the tool is missing, or an invoked vendor command fails. -/
theorem C9_flash_exit_codes (p : FlashPlatform) (fw : String)
    (m : FlashMethod) (env : FlashEnv) :
    (flashMain p fw m env = 0 ∨ flashMain p fw m env = 1) ∧
    (flashMain p fw m env = 0 ↔
      (env.pathExists fw = true ∧
       env.toolOnPath (selectedTool p m) = true ∧
       ∀ cmd ∈ plannedCmds p fw m, env.runExit cmd = 0)) := by
  cases p <;> cases m <;>
    simp only [flashMain, flash_stm32, flash_nrf52, selectedTool,
      plannedCmds] <;>
    split_ifs <;>
    simp_all

theorem C9_flash_exit_codes_witness :
    flashMain FlashPlatform.nrf52 "fw.hex" FlashMethod.stflash
      ⟨fun _ => true, fun _ => true, fun _ => 0⟩ = 0 :=
  ((C9_flash_exit_codes FlashPlatform.nrf52 "fw.hex" FlashMethod.stflash
      ⟨fun _ => true, fun _ => true, fun _ => 0⟩).2).mpr
    ⟨rfl, rfl, fun _ _ => rfl⟩

theorem matchFrom_cons_ne {c : Char} (cs : List Char) (h : c ≠ 's') :
    matchFrom (c :: cs) = none := by
  match cs with
  | [] => rfl
  | [b] => rfl
  | [b, c2] => rfl
  | b :: c2 :: d :: rest => simp [matchFrom, h]

theorem findAll_append_no_s (rest : List Char) : ∀ p : List Char,
    (∀ c ∈ p, c ≠ 's') → findAll (p ++ rest) = findAll rest := by
  intro p
  induction p with
  | nil => intro _; rfl
  | cons c p' ih =>
    intro h
    rw [List.cons_append,
      findAll_match_none (matchFrom_cons_ne _ (h c (List.mem_cons_self _ _))),
      ih (fun d hd => h d (List.mem_cons_of_mem _ hd))]

theorem matchFrom_foo_cpp (suf : List Char) :
    matchFrom ('s' :: 'r' :: 'c' :: '/' :: 'f' :: 'o' :: 'o' :: '.' ::
        'c' :: 'p' :: 'p' :: suf) =
      some (['s', 'r', 'c', '/', 'f', 'o', 'o', '.', 'c'],
        'p' :: 'p' :: suf) := rfl

/-- C10 counterexample: the manifest text `src/xsrc/foo.cpp` contains the
substring `src/foo.cpp`, and every occurrence of `src/foo.c` in it is the
one inside that substring; yet the extractor does not produce the entry
`src/foo.c`, because the greedy scan starting at the earlier `src/` absorbs
the whole token into the single match `src/xsrc/foo.c`. -/
theorem C10_unanchored_counterexample :
    ("src/foo.cpp".data.isPrefixOf ("src/xsrc/foo.cpp".data.drop 5)
      = true) ∧
    (∀ n < 16,
      "src/foo.c".data.isPrefixOf ("src/xsrc/foo.cpp".data.drop n) = true →
      "src/foo.cpp".data.isPrefixOf ("src/xsrc/foo.cpp".data.drop n)
        = true) ∧
    "src/foo.c" ∉ parse_cmake_sources "src/xsrc/foo.cpp" ∧
    parse_cmake_sources "src/xsrc/foo.cpp" = ["src/xsrc/foo.c"] := by
  decide

/-- C10 amended: the extension match of the pattern is not anchored at a
token boundary — whenever `src/foo.cpp` occurs after a prefix from which no
match can overlap into the occurrence (sufficient condition: the prefix
contains no `s` character), the extractor's output contains the proper
prefix `src/foo.c` of the longer path-like token. -/
theorem C10_unanchored_amended (pre suf : String)
    (h : ∀ c ∈ pre.data, c ≠ 's') :
    "src/foo.c" ∈ parse_cmake_sources (pre ++ "src/foo.cpp" ++ suf) := by
  have hdata : (pre ++ "src/foo.cpp" ++ suf).data =
      pre.data ++ ('s' :: 'r' :: 'c' :: '/' :: 'f' :: 'o' :: 'o' :: '.' ::
        'c' :: 'p' :: 'p' :: suf.data) := by
    simp [String.data_append]
  rw [parse_cmake_sources, mem_dedupGo]
  refine ⟨?_, by simp⟩
  rw [hdata, findAll_append_no_s _ _ h,
    findAll_match_some (matchFrom_foo_cpp suf.data)]
  exact List.mem_map.mpr ⟨_, List.mem_cons_self _ _, rfl⟩

theorem C10_unanchored_amended_witness :
    "src/foo.c" ∈ parse_cmake_sources ((" " : String) ++ "src/foo.cpp"
      ++ "") :=
  C10_unanchored_amended " " "" (by decide)

end OpenFIDO
